import Mathlib

/-!
Verification of the tinyhttp core (allocator/buffer memory model, buffer_stream
serialization, event channel and wire framing) against its natural-language
specification.  Byte buffers are embedded as `List Nat` (each element one byte),
machine integers as `Nat`/`Int` with explicit bounds, and the C++ control flow
of each function is translated statement by statement from `src/include`.
-/

set_option maxHeartbeats 1000000

/-- Little-endian byte encoding of `n` into `w` bytes, the object
representation of a `w`-byte unsigned machine integer on x86-64. -/
def encLE : Nat → Nat → List Nat
  | 0, _ => []
  | w + 1, n => n % 256 :: encLE w (n / 256)

/-- Little-endian decoding of a byte list, the value obtained by
reinterpreting the bytes as an unsigned machine integer on x86-64. -/
def decLE : List Nat → Nat
  | [] => 0
  | b :: bs => b + 256 * decLE bs

/-!
## buffer_stream (src/include/memory.h, lines 164-410)

The stream state carries the bound buffer's bytes (`data`, whose length is the
buffer's `capacity()`), the cursor `position_`, the `eof_` flag and the
`auto_expand` flag.  The buffer's read/write lock only orders concurrent
access and has no effect on the sequential values computed here.
-/

structure buffer_stream where
  data : List Nat
  pos : Nat
  eof : Bool
  auto_expand : Bool
deriving DecidableEq

/-- `buffer_.capacity()` of the bound buffer. -/
def buffer_stream.capacity (s : buffer_stream) : Nat := s.data.length

/-- `reference(offset, size)` (memory.h 193-201): bounds-checks
`offset + size > capacity` and otherwise hands out the addressed bytes
(the data a returned pointer lets the caller read). -/
def buffer_stream.reference (s : buffer_stream) (offset size : Nat) :
    Option (List Nat) :=
  if offset + size > s.capacity then none
  else some ((s.data.drop offset).take size)

/-- `write(src, offset, size)` (memory.h 217-228): bounds-checks
`offset + size > capacity`, then `memcpy`s `src` into the buffer at `offset`.
Returns the updated buffer contents, or `none` for the `false` branch. -/
def writeBytes (data : List Nat) (src : List Nat) (offset : Nat) :
    Option (List Nat) :=
  if offset + src.length > data.length then none
  else some (data.take offset ++ src ++ data.drop (offset + src.length))

/-- `get(char* dest, size_t size)` (memory.h 248-263).  Result is the returned
`ssize_t`, the bytes copied into `dest` (through `read`, which can only fail
if its internal bounds check fails, in which case `dest` is untouched,
modelled as `[]`), and the updated stream. -/
def buffer_stream.get_run (s : buffer_stream) (size : Nat) :
    Int × List Nat × buffer_stream :=
  let curr := s.pos + size
  if s.eof then (-1, [], s)
  else if s.capacity ≤ curr then
    let remain := s.capacity - s.pos
    ((remain : Int), (s.reference s.pos remain).getD [],
      { s with eof := true, pos := s.capacity })
  else
    ((size : Int), (s.reference s.pos size).getD [], { s with pos := curr })

/-- `strlen(buffer_.pointer() + position_)`: the distance from `pos` to the
first zero byte.  Faithful to C `strlen` whenever a zero byte exists at or
after `pos` (otherwise the C call reads past the buffer). -/
def strlenFrom (data : List Nat) (pos : Nat) : Nat :=
  ((data.drop pos).takeWhile (fun b => b ≠ 0)).length

/-- The bare-string `get()` (memory.h 265-282): measures the run with
`strlen`, updates `eof_`/`position_`, then copies the run out through `read`
(which starts at `position_ - length`); on a failed bounds check it returns
the empty string and sets `eof_`. -/
def buffer_stream.get_str (s : buffer_stream) : List Nat × buffer_stream :=
  let len := strlenFrom s.data s.pos
  let curr := s.pos + len
  let s' : buffer_stream :=
    { s with eof := if curr = s.capacity then true else s.eof, pos := curr }
  match s'.reference (curr - len) len with
  | none => ([], { s' with eof := true })
  | some bytes => (bytes, s')

/-- `get_as<T>()` (memory.h 284-300) for a plain type of size `step`:
advances the cursor, then returns the `step` bytes at the old position by
reference; throws `memory_exception` when the bounds check fails. -/
def buffer_stream.get_as_bytes (s : buffer_stream) (step : Nat) :
    Except String (List Nat × buffer_stream) :=
  let curr := s.pos + step
  let s' : buffer_stream :=
    { s with eof := if curr = s.capacity then true else s.eof, pos := curr }
  match s'.reference (curr - step) step with
  | none => .error "segment fault, invalid pointer access"
  | some bytes => .ok (bytes, s')

/-- The length-prefixed `get_as()` view (memory.h 302-317): reads an 8-byte
(`sizeof(size_t)`) length at the cursor, then that many payload bytes after
it; returns an empty view (setting `eof_`) if either bounds check fails, and
only advances the cursor on success. -/
def buffer_stream.get_as_view (s : buffer_stream) : List Nat × buffer_stream :=
  match s.reference s.pos 8 with
  | none => ([], { s with eof := true })
  | some lenBytes =>
    let length := decLE lenBytes
    match s.reference (s.pos + 8) length with
    | none => ([], { s with eof := true })
    | some dataBytes => (dataBytes, { s with pos := s.pos + 8 + length })

/-- `shared_array_buffer::expand` / `unique_array_buffer::expand` as seen by a
stream: `realloc` keeps the first `min(old, new)` bytes; the fresh tail bytes
are indeterminate in C and modelled as 0 — every `append` below overwrites
the whole region it exposed before anything reads it. -/
def expandTo (data : List Nat) (newCap : Nat) : List Nat :=
  data.take newCap ++ List.replicate (newCap - data.length) 0

/-- `append<T>(const T&)` and `append(const char*, size_t)` (memory.h 319-337
and 362-378, identical control flow): `src` is the object representation
respectively the raw byte run being appended. -/
def buffer_stream.append_bytes (s : buffer_stream) (src : List Nat) :
    Bool × buffer_stream :=
  let curr := s.pos + src.length
  let s₁ :=
    if s.auto_expand ∧ s.capacity ≤ curr then
      { s with data := expandTo s.data curr }
    else s
  let s₂ : buffer_stream :=
    { s₁ with eof := if curr = s₁.capacity then true else s₁.eof, pos := curr }
  match writeBytes s₂.data src (curr - src.length) with
  | none => (false, { s₂ with eof := true })
  | some d => (true, { s₂ with data := d })

/-- `append(const std::string_view&)` (memory.h 339-361): reserves
`8 + str.length` bytes (expanding once), then writes the 8-byte
(`sizeof(size_t)`) length followed by the raw bytes. -/
def buffer_stream.append_sv (s : buffer_stream) (str : List Nat) :
    Bool × buffer_stream :=
  let originalLength := str.length
  let len := originalLength + 8
  let curr := s.pos + len
  let s₁ :=
    if s.auto_expand ∧ s.capacity ≤ curr then
      { s with data := expandTo s.data curr }
    else s
  let s₂ : buffer_stream :=
    { s₁ with eof := if curr = s₁.capacity then true else s₁.eof, pos := curr }
  match writeBytes s₂.data (encLE 8 originalLength) (curr - len) with
  | none => (false, { s₂ with eof := true })
  | some d₁ =>
    match writeBytes d₁ str (curr - originalLength) with
    | none => (false, { s₂ with data := d₁, eof := true })
    | some d₂ => (true, { s₂ with data := d₂ })

/-!
## event_log serialization (src/include/log.h, lines 62-117)

`sizeof(log_level) = 4` (enum over `int`) and `sizeof(time_t) = 8` on the
LP64 target; `lv` and `tm` are the corresponding non-negative machine values
and `frm`/`msg` the raw bytes of the two string fields.
-/

/-- The field-writing constructor `event_log(level, time, from, msg)`
(log.h 71-86): allocates a buffer of `sizeof(lv) + sizeof(tm) +
from.length() + msg.length() + 1` bytes (malloc contents indeterminate,
modelled as 0 — every byte surviving into the result is overwritten),
enables auto-expand, then appends the four fields in order, throwing
`memory_exception` on any failed append.  Returns the final `content()`
bytes. -/
def event_log_content (lv tm : Nat) (frm msg : List Nat) :
    Except String (List Nat) :=
  let cap0 := 4 + 8 + frm.length + msg.length + 1
  let s0 : buffer_stream := ⟨List.replicate cap0 0, 0, false, true⟩
  let r1 := s0.append_bytes (encLE 4 lv)
  if r1.1 = false then
    .error "cannot write log_level to event_log array buffer"
  else
    let r2 := r1.2.append_bytes (encLE 8 tm)
    if r2.1 = false then
      .error "cannot write time_t to event_log array buffer"
    else
      let r3 := r2.2.append_sv frm
      if r3.1 = false then
        .error "cannot write from_process to event_log array buffer"
      else
        let r4 := r3.2.append_sv msg
        if r4.1 = false then
          .error "cannot write message to event_log array buffer"
        else
          .ok r4.2.data

/-- The deserializing constructor `event_log(general_shared_array_buffer_t)`
(log.h 87-103): reads the level and timestamp with `get_as<T>` (rethrowing
`memory_exception`), then the two length-prefixed views, rejecting an empty
`from` or `msg`. -/
def event_log_from_buffer (data : List Nat) :
    Except String (Nat × Nat × List Nat × List Nat) :=
  let s0 : buffer_stream := ⟨data, 0, false, false⟩
  match s0.get_as_bytes 4 with
  | .error e => .error e
  | .ok (lvB, s1) =>
    match s1.get_as_bytes 8 with
    | .error e => .error e
    | .ok (tmB, s2) =>
      let r3 := s2.get_as_view
      if r3.1.isEmpty then
        .error "cannot read from_process from event_log array buffer"
      else
        let r4 := r3.2.get_as_view
        if r4.1.isEmpty then
          .error "cannot read message from event_log array buffer"
        else
          .ok (decLE lvB, decLE tmB, r3.1, r4.1)

/-!
## shared_array_buffer lifecycle (src/include/memory.h, lines 414-494)

A single buffer group (one `meta` block) is observed through the counters of
a state: the shared `reference_count` (a C++ `int`, hence `Int`), the number
of live handles (objects whose `meta_` points at the block), the number of
moved-from handles (`meta_ == nullptr`), and how many times the owning
`allocator->release()` on destruction has run.  Each constructor/destructor
of the class becomes one step.
-/

structure sab_state where
  rc : Int
  live : Nat
  dead : Nat
  releases : Nat
deriving DecidableEq

/-- The copy constructor's effect on the reference count (memory.h 447-455):
under the count mutex, a zero count throws `memory_exception` and anything
else is incremented. -/
def sab_copy_ctor (rc : Int) : Except String Int :=
  if rc = 0 then .error "source array buffer has released"
  else .ok (rc + 1)

inductive sab_op where
  /-- copy-construct a new handle from a live handle (memory.h 447-455). -/
  | copy
  /-- move-construct from a live handle: the new handle takes `meta_`, the
  source is nulled (memory.h 456-458). -/
  | move
  /-- move-construct from an already moved-from handle: both end up null. -/
  | moveDead
  /-- destroy a live handle (memory.h 467-483): decrement the count and, on
  hitting zero, run the single owning `allocator->release()` + `delete`. -/
  | destroyLive
  /-- destroy a moved-from handle: `meta_` is null (field `ptr` sits at
  offset 0 of `meta`), so the guard at line 469 skips the body. -/
  | destroyDead
deriving DecidableEq

/-- One operation on the buffer group.  `none` means the operation has no
object to act on (e.g. copying from a moved-from handle would dereference a
null `meta_` and has no defined behaviour to model). -/
def sab_step (s : sab_state) (op : sab_op) : Option sab_state :=
  match op with
  | .copy =>
    if s.live = 0 then none
    else
      match sab_copy_ctor s.rc with
      | .error _ => some s
      | .ok rc' => some { s with rc := rc', live := s.live + 1 }
  | .move =>
    if s.live = 0 then none else some { s with dead := s.dead + 1 }
  | .moveDead =>
    if s.dead = 0 then none else some { s with dead := s.dead + 1 }
  | .destroyLive =>
    if s.live = 0 then none
    else
      let rc' := s.rc - 1
      some { s with rc := rc', live := s.live - 1,
                    releases := if rc' = 0 then s.releases + 1 else s.releases }
  | .destroyDead =>
    if s.dead = 0 then none else some { s with dead := s.dead - 1 }

/-- State after the allocating constructor (memory.h 429-446): one live
handle, `reference_count` incremented from the zeroed `meta` to 1. -/
def sab_init : sab_state := ⟨1, 1, 0, 0⟩

/-- Run a sequence of handle operations. -/
def sab_run (s : sab_state) : List sab_op → Option sab_state
  | [] => some s
  | op :: ops => (sab_step s op).bind fun s' => sab_run s' ops

/-!
## Allocators (src/include/memory.h, lines 50-150)

Pointers are addresses (`Nat`, with 0 playing `nullptr`).  The behaviour of
the system `realloc` is environment-supplied, so it is a parameter: the
definitions below only fix what the repository's code does with its result.
-/

/-- The alignment adjustment shared by `aligned_heap_allocator::allocate`
(memory.h 118-119) and `::reallocate` (memory.h 131-132): the code computes
`offset = base % align` and returns `base + offset`, recording `offset`. -/
def aligned_adjust (base align : Nat) : Nat × Nat :=
  let offset := base % align
  (base + offset, offset)

/-- `heap_allocator::reallocate(ptr, size)` (memory.h 69-81): walk the
registry; at the first entry equal to `ptr`, replace it with
`realloc(ptr, size)` (throwing if that is null) and return it; if the loop
falls through, return `nullptr` (modelled `none`) with the registry
untouched. -/
def heap_allocator_reallocate (realloc_fn : Nat → Nat → Nat) (ptrs : List Nat)
    (p size : Nat) : Except String (Option Nat × List Nat) :=
  match ptrs with
  | [] => .ok (none, [])
  | q :: rest =>
    if q = p then
      let r := realloc_fn p size
      if r = 0 then .error "realloc() returned nullptr"
      else .ok (some r, r :: rest)
    else
      (heap_allocator_reallocate realloc_fn rest p size).map fun x =>
        (x.1, q :: x.2)

/-- `aligned_heap_allocator::reallocate(ptr, size)` (memory.h 123-137): walk
the registry of `(adjusted pointer, offset)` chunks; at the first entry whose
pointer equals `ptr`, `realloc` the recovered base (`ptr - offset`) to
`size + align`, recompute the adjustment and store/return it; a fall-through
returns `nullptr` with the registry untouched. -/
def aligned_heap_allocator_reallocate (realloc_fn : Nat → Nat → Nat) (align : Nat)
    (ptrs : List (Nat × Nat)) (p size : Nat) :
    Except String (Option Nat × List (Nat × Nat)) :=
  match ptrs with
  | [] => .ok (none, [])
  | (q, off) :: rest =>
    if q = p then
      let base := realloc_fn (q - off) (size + align)
      if base = 0 then .error "realloc() returned nullptr"
      else .ok (some (aligned_adjust base align).1, [(aligned_adjust base align)] ++ rest)
    else
      (aligned_heap_allocator_reallocate realloc_fn align rest p size).map fun x =>
        (x.1, (q, off) :: x.2)

/-!
## event_channel (src/include/evchannel.h, lines 17-81)

Subscribers are identified by their callback ids.  The `std::map` from event
id to handler vector is modelled as a total function defaulting to the empty
list: `post`'s `contains` check followed by iteration is observationally the
same as iterating the (possibly empty) list, and `subscribe`'s
default-inserting `operator[]` followed by `push_back` is the pointwise
update below.
-/

structure event_channel where
  evhandlers : Nat → List Nat
  cbid_count : Nat

/-- `subscribe<E>` (evchannel.h 33-47): hand out the next callback id and
append it to the handler list registered under `E::unique_event_id`. -/
def event_channel.subscribe (ch : event_channel) (ueid : Nat) :
    Nat × event_channel :=
  let cbid := ch.cbid_count
  (cbid,
    { evhandlers := fun e =>
        if e = ueid then ch.evhandlers ueid ++ [cbid] else ch.evhandlers e,
      cbid_count := ch.cbid_count + 1 })

/-- `post<E>` (evchannel.h 70-80): serialize once via `content()` (the
`content` argument is those bytes; each handler call receives a fresh
reference-counted copy of that one buffer, i.e. the same bytes), then invoke
the handlers registered under `E::unique_event_id` in order.  The result is
the sequence of invocations `(callback id, delivered bytes)` in call order. -/
def event_channel.post (ch : event_channel) (ueid : Nat) (content : List Nat) :
    List (Nat × List Nat) :=
  (ch.evhandlers ueid).foldl (fun acc cbid => acc ++ [(cbid, content)]) []

/-- A channel with no subscriptions yet. -/
def event_channel.empty : event_channel := ⟨fun _ => [], 0⟩

/-- Subscribe a sequence of event ids in order (each `subscribe` call as in
the source), starting from the empty channel. -/
def subscribe_all (subs : List Nat) : event_channel :=
  subs.foldl (fun c u => (c.subscribe u).2) event_channel.empty

/-!
## Wire framing (src/include/evchannel.h, lines 83-119)

On the x86-64 LP64 target `event_packet_header` is `int ueid` at offset 0
and `size_t size` at offset 8 with 4 bytes of alignment padding between
(`sizeof(event_packet_header) = 16`).  Padding bytes are indeterminate and
modelled as 0; no claim below depends on their value.
-/

/-- The object representation of `event_packet_header` (evchannel.h 83-86). -/
def event_packet_header_bytes (ueid size : Nat) : List Nat :=
  encLE 4 ueid ++ [0, 0, 0, 0] ++ encLE 8 size

/-- `send_packet(fd, ev)` (evchannel.h 88-102): `writefd` the header object
(`sizeof(hdr)` bytes) then the `content()` bytes (`capacity()` bytes); the
result is the full byte sequence written to the descriptor (`writefd`,
io.h 61-75, writes exactly its `size` argument, retrying transient errors). -/
def send_packet_bytes (ueid : Nat) (content : List Nat) : List Nat :=
  event_packet_header_bytes ueid content.length ++ content

/-- The header-parsing part of `recv_packet(fd)` (evchannel.h 104-119) on the
drained bytes: `get_as<int>` (4 bytes) then `get_as<int64_t>` (8 bytes) on a
stream over the drained buffer, yielding the event id, the size used for the
payload allocation, and the stream after parsing. -/
def recv_packet_header (data : List Nat) :
    Except String (Nat × Nat × buffer_stream) :=
  let s0 : buffer_stream := ⟨data, 0, false, false⟩
  match s0.get_as_bytes 4 with
  | .error e => .error e
  | .ok (evidB, s1) =>
    match s1.get_as_bytes 8 with
    | .error e => .error e
    | .ok (sizeB, s2) => .ok (decLE evidB, decLE sizeB, s2)

/-!
## Helper lemmas
-/

theorem encLE_length (w n : Nat) : (encLE w n).length = w := by
  induction w generalizing n with
  | zero => rfl
  | succ w ih => simp [encLE, ih]

theorem decLE_encLE (w n : Nat) (h : n < 256 ^ w) : decLE (encLE w n) = n := by
  induction w generalizing n with
  | zero =>
      interval_cases n
      rfl
  | succ w ih =>
      have hdiv : n / 256 < 256 ^ w := by
        rw [Nat.div_lt_iff_lt_mul (by norm_num : 0 < 256)]
        calc n < 256 ^ (w + 1) := h
          _ = 256 ^ w * 256 := by ring
      simp only [encLE, decLE, ih (n / 256) hdiv]
      omega

/-!
## C2 — send_packet framing
-/

/-- C2: the claim states that `send_packet` writes a fixed 12-byte header
(type id at offset 0, the 8-byte payload size at offset 4) followed by the
payload, for `12 + payload length` bytes in total.  Evaluating the embedded
sender at a concrete event (type id 1, 3 payload bytes) shows the code
instead writes `sizeof(event_packet_header) = 16` header bytes, with the
size field at offset 8 after 4 alignment-padding bytes, for a total of
`16 + payload length`. -/
theorem send_packet_writes_16_byte_header :
    (send_packet_bytes 1 [7, 7, 7]).length = 16 + 3 ∧
    ¬((send_packet_bytes 1 [7, 7, 7]).length = 12 + 3) ∧
    ((send_packet_bytes 1 [7, 7, 7]).drop 8).take 8 = encLE 8 3 ∧
    ¬(((send_packet_bytes 1 [7, 7, 7]).drop 4).take 8 = encLE 8 3) := by
  decide

/-!
## C3 — send/recv round trip
-/

/-- C3: the claim states that `recv_packet` after `send_packet` recovers the
original type id and payload: it parses bytes 4-11 of the drained data as
the payload length and copies the bytes from offset 12.  The sender however
placed the length at offset 8 (16-byte header), so at the concrete event
(type id 1, payload `[7,7,7]`) the parsed length is `3 * 2^32`, not 3: the
round trip cannot return a payload equal to the 3 content bytes.  (The
receiver then also passes `stream.reference(12, size)`, a `char*`, to the
`append<T>` template overload, writing the pointer value itself instead of
the payload bytes.) -/
theorem recv_packet_misreads_payload_size :
    recv_packet_header (send_packet_bytes 1 [7, 7, 7])
      = .ok (1, 12884901888, ⟨send_packet_bytes 1 [7, 7, 7], 12, false, false⟩) ∧
    ¬((12884901888 : Nat) = [7, 7, 7].length) :=
  ⟨by rfl, by decide⟩

/-!
## C4 — aligned allocator
-/

/-- C4: the claim states that every pointer returned by
`aligned_heap_allocator::allocate`/`reallocate` is a multiple of the
alignment boundary.  The code computes `offset = base % align` and returns
`base + offset`, which is misaligned whenever `2 * (base % align)` is not a
multiple of `align`: with a 64-byte boundary and `malloc` returning base
address 16 (every glibc `malloc` result is only 16-aligned), both the
allocate adjustment and the reallocate path return address 32. -/
theorem aligned_allocator_returns_misaligned_pointer :
    (aligned_adjust 16 64).1 = 32 ∧
    ¬((aligned_adjust 16 64).1 % 64 = 0) ∧
    aligned_heap_allocator_reallocate (fun _ _ => 16) 64 [(8, 4)] 8 100
      = .ok (some 32, [(32, 16)]) ∧
    ¬((32 : Nat) % 64 = 0) :=
  ⟨by decide, by decide, by rfl, by decide⟩

/-!
## C5 — copy of a released shared buffer
-/

/-- C5: copy-constructing a `shared_array_buffer` increments the reference
count exactly when it is positive; at count 0 it throws the
"source array buffer has released" `memory_exception`, never silently
succeeds, and the count (and the whole lifecycle state) is left unchanged. -/
theorem shared_buffer_copy_after_release (rc : Int) (s : sab_state)
    (hrc : 0 < rc) (hlive : s.live ≠ 0) (hzero : s.rc = 0) :
    sab_copy_ctor rc = .ok (rc + 1) ∧
    sab_copy_ctor 0 = .error "source array buffer has released" ∧
    sab_step s sab_op.copy = some s := by
  refine ⟨?_, rfl, ?_⟩
  · unfold sab_copy_ctor
    rw [if_neg (by omega)]
  · unfold sab_step
    rw [if_neg hlive]
    unfold sab_copy_ctor
    rw [hzero, if_pos rfl]

/-- Witness for C5 at reference count 5 and a released-but-still-referenced
state. -/
theorem shared_buffer_copy_after_release_witness :
    sab_copy_ctor 5 = .ok 6 ∧
    sab_copy_ctor 0 = .error "source array buffer has released" ∧
    sab_step ⟨0, 1, 0, 1⟩ sab_op.copy = some ⟨0, 1, 0, 1⟩ :=
  shared_buffer_copy_after_release 5 ⟨0, 1, 0, 1⟩ (by norm_num) (by decide) rfl

/-!
## C10 — reallocate of an untracked pointer
-/

/-- C10: for any registry state of `heap_allocator` or
`aligned_heap_allocator` and any pointer not recorded in it,
`reallocate(p, n)` falls through the registry loop and returns `nullptr`
without throwing, leaving the registry unchanged; no tracked block is
touched (the result holds for every behaviour of the system `realloc`,
which is therefore never consulted). -/
theorem reallocate_untracked_pointer (realloc_fn : Nat → Nat → Nat)
    (align : Nat) (ptrs : List Nat) (chunks : List (Nat × Nat)) (p size : Nat)
    (h1 : p ∉ ptrs) (h2 : p ∉ chunks.map Prod.fst) :
    heap_allocator_reallocate realloc_fn ptrs p size = .ok (none, ptrs) ∧
    aligned_heap_allocator_reallocate realloc_fn align chunks p size
      = .ok (none, chunks) := by
  constructor
  · induction ptrs with
    | nil => rfl
    | cons q rest ih =>
        rw [List.mem_cons] at h1
        push_neg at h1
        unfold heap_allocator_reallocate
        rw [if_neg (fun e => h1.1 e.symm), ih h1.2]
        rfl
  · induction chunks with
    | nil => rfl
    | cons c rest ih =>
        rw [List.map_cons, List.mem_cons] at h2
        push_neg at h2
        unfold aligned_heap_allocator_reallocate
        rw [if_neg (fun e => h2.1 e.symm), ih h2.2]
        rfl

/-- Witness for C10: pointer 5 is in neither registry. -/
theorem reallocate_untracked_pointer_witness :
    heap_allocator_reallocate (fun a _ => a) [3, 4] 5 10 = .ok (none, [3, 4]) ∧
    aligned_heap_allocator_reallocate (fun a _ => a) 16 [(3, 1), (4, 2)] 5 10
      = .ok (none, [(3, 1), (4, 2)]) :=
  reallocate_untracked_pointer (fun a _ => a) 16 [3, 4] [(3, 1), (4, 2)] 5 10
    (by decide) (by decide)

/-!
## C8 — buffer_stream::get(dest, size)
-/

/-- C8: for a stream whose cursor is within the buffer, `get(dest, size)`
returns -1 when the end-of-stream flag is already set; when
`position + size` reaches or exceeds the capacity it copies exactly the
remaining `capacity - position` bytes, sets end-of-stream, moves the cursor
to the capacity and returns the count copied; otherwise it copies all `size`
bytes, advances the cursor by `size` and returns `size`. -/
theorem get_run_spec (s : buffer_stream) (size : Nat)
    (hpos : s.pos ≤ s.capacity) :
    (s.eof = true → s.get_run size = (-1, [], s)) ∧
    (s.eof = false → s.capacity ≤ s.pos + size →
      s.get_run size
        = (((s.capacity - s.pos : Nat) : Int),
           (s.data.drop s.pos).take (s.capacity - s.pos),
           { s with eof := true, pos := s.capacity }) ∧
      ((s.data.drop s.pos).take (s.capacity - s.pos)).length
        = s.capacity - s.pos) ∧
    (s.eof = false → s.pos + size < s.capacity →
      s.get_run size
        = (((size : Nat) : Int), (s.data.drop s.pos).take size,
           { s with pos := s.pos + size }) ∧
      ((s.data.drop s.pos).take size).length = size) := by
  refine ⟨fun he => ?_, fun he hcap => ?_, fun he hcap => ?_⟩
  · simp only [buffer_stream.get_run, he, if_true]
  · have href : s.reference s.pos (s.capacity - s.pos)
        = some ((s.data.drop s.pos).take (s.capacity - s.pos)) := by
      unfold buffer_stream.reference
      rw [if_neg (by omega)]
    constructor
    · simp only [buffer_stream.get_run, he, if_pos hcap, href]
      rfl
    · simp only [List.length_take, List.length_drop, buffer_stream.capacity] at hpos hcap ⊢
      omega
  · have href : s.reference s.pos size
        = some ((s.data.drop s.pos).take size) := by
      unfold buffer_stream.reference
      rw [if_neg (by omega)]
    constructor
    · simp only [buffer_stream.get_run, he]
      rw [if_neg (by simp), if_neg (by omega), href]
      rfl
    · simp only [List.length_take, List.length_drop]
      unfold buffer_stream.capacity at hpos hcap
      omega

/-- Witness for C8: a 5-byte buffer at cursor 2 asked for 10 bytes yields
the 3 remaining bytes, and asked for 2 bytes yields those 2 bytes. -/
theorem get_run_spec_witness :
    buffer_stream.get_run ⟨[1, 2, 3, 4, 5], 2, false, false⟩ 10
      = (3, [3, 4, 5], ⟨[1, 2, 3, 4, 5], 5, true, false⟩) ∧
    buffer_stream.get_run ⟨[1, 2, 3, 4, 5], 2, false, false⟩ 2
      = (2, [3, 4], ⟨[1, 2, 3, 4, 5], 4, false, false⟩) ∧
    buffer_stream.get_run ⟨[1, 2, 3, 4, 5], 2, true, false⟩ 2
      = (-1, [], ⟨[1, 2, 3, 4, 5], 2, true, false⟩) :=
  ⟨((get_run_spec ⟨[1, 2, 3, 4, 5], 2, false, false⟩ 10 (by decide)).2.1
      rfl (by decide)).1,
   ((get_run_spec ⟨[1, 2, 3, 4, 5], 2, false, false⟩ 2 (by decide)).2.2
      rfl (by decide)).1,
   (get_run_spec ⟨[1, 2, 3, 4, 5], 2, true, false⟩ 2 (by decide)).1 rfl⟩

/-!
## C1 — shared buffer reference counting
-/

/-- The inductive invariant of a buffer group: the reference count mirrors
the number of live handles, and the owning release has run exactly when the
last live handle has gone. -/
def sab_inv (s : sab_state) : Prop :=
  s.rc = (s.live : Int) ∧ (s.live = 0 → s.releases = 1) ∧
    (s.live ≠ 0 → s.releases = 0)

theorem sab_inv_step (s : sab_state) (op : sab_op) (s' : sab_state)
    (hinv : sab_inv s) (hstep : sab_step s op = some s') : sab_inv s' := by
  obtain ⟨h1, h2, h3⟩ := hinv
  cases op with
  | copy =>
      simp only [sab_step] at hstep
      by_cases hl : s.live = 0
      · rw [if_pos hl] at hstep; exact absurd hstep (by simp)
      · rw [if_neg hl] at hstep
        unfold sab_copy_ctor at hstep
        rw [if_neg (by omega)] at hstep
        obtain rfl : { s with rc := s.rc + 1, live := s.live + 1 } = s' :=
          Option.some.inj hstep
        exact ⟨by simp; omega, by simp, fun _ => h3 hl⟩
  | move =>
      simp only [sab_step] at hstep
      by_cases hl : s.live = 0
      · rw [if_pos hl] at hstep; exact absurd hstep (by simp)
      · rw [if_neg hl] at hstep
        obtain rfl : { s with dead := s.dead + 1 } = s' := Option.some.inj hstep
        exact ⟨h1, h2, h3⟩
  | moveDead =>
      simp only [sab_step] at hstep
      by_cases hd : s.dead = 0
      · rw [if_pos hd] at hstep; exact absurd hstep (by simp)
      · rw [if_neg hd] at hstep
        obtain rfl : { s with dead := s.dead + 1 } = s' := Option.some.inj hstep
        exact ⟨h1, h2, h3⟩
  | destroyLive =>
      simp only [sab_step] at hstep
      by_cases hl : s.live = 0
      · rw [if_pos hl] at hstep; exact absurd hstep (by simp)
      · rw [if_neg hl] at hstep
        obtain rfl := Option.some.inj hstep
        have hz := h3 hl
        refine ⟨by simp; omega, fun hl' => ?_, fun hl' => ?_⟩
        · simp only at hl' ⊢
          have : s.rc - 1 = 0 := by omega
          rw [if_pos this, hz]
        · simp only at hl' ⊢
          have : ¬(s.rc - 1 = 0) := by omega
          rw [if_neg this]
          exact hz
  | destroyDead =>
      simp only [sab_step] at hstep
      by_cases hd : s.dead = 0
      · rw [if_pos hd] at hstep; exact absurd hstep (by simp)
      · rw [if_neg hd] at hstep
        obtain rfl : { s with dead := s.dead - 1 } = s' := Option.some.inj hstep
        exact ⟨h1, h2, h3⟩

theorem sab_inv_run (ops : List sab_op) (s s' : sab_state) (hinv : sab_inv s)
    (hrun : sab_run s ops = some s') : sab_inv s' := by
  induction ops generalizing s with
  | nil => exact Option.some.inj hrun ▸ hinv
  | cons op ops ih =>
      unfold sab_run at hrun
      cases hs : sab_step s op with
      | none => rw [hs] at hrun; exact absurd hrun (by simp)
      | some s₁ =>
          rw [hs] at hrun
          exact ih s₁ (sab_inv_step s op s₁ hinv hs) hrun

/-- C1: across every valid sequence of copy-constructions,
move-constructions and destructions of `shared_array_buffer` handles,
starting from the allocating constructor, the reference count always equals
the number of live (non-moved-from) handles, the owning
`allocator->release()` runs at most once, it has run exactly when the count
has reached 0, and any step increases the release count exactly when it is
the destruction of a live handle at reference count 1 (the 1-to-0
transition). -/
theorem shared_buffer_refcount_invariant (ops : List sab_op) (s : sab_state)
    (h : sab_run sab_init ops = some s) :
    s.rc = (s.live : Int) ∧ s.releases ≤ 1 ∧
    (s.releases = 1 ↔ s.rc = 0) ∧
    (∀ op s', sab_step s op = some s' →
      (s'.releases = s.releases + 1 ↔ (op = sab_op.destroyLive ∧ s.rc = 1))) := by
  have hinv : sab_inv s := sab_inv_run ops sab_init s (by constructor <;> simp [sab_init]) h
  obtain ⟨h1, h2, h3⟩ := hinv
  refine ⟨h1, by by_cases hl : s.live = 0
                 · rw [h2 hl]
                 · rw [h3 hl]; omega,
          ⟨fun hr => ?_, fun hr => ?_⟩, fun op s' hstep => ?_⟩
  · by_cases hl : s.live = 0
    · rw [h1, hl]; rfl
    · rw [h3 hl] at hr; exact absurd hr (by omega)
  · have hl : s.live = 0 := by omega
    exact h2 hl
  · cases op with
    | copy =>
        simp only [sab_step] at hstep
        by_cases hl : s.live = 0
        · rw [if_pos hl] at hstep; exact absurd hstep (by simp)
        · rw [if_neg hl] at hstep
          unfold sab_copy_ctor at hstep
          rw [if_neg (by omega)] at hstep
          obtain rfl := Option.some.inj hstep
          simp only
          constructor
          · intro hrel; exact absurd hrel (by omega)
          · rintro ⟨hop, -⟩; exact absurd hop (by simp)
    | move =>
        simp only [sab_step] at hstep
        by_cases hl : s.live = 0
        · rw [if_pos hl] at hstep; exact absurd hstep (by simp)
        · rw [if_neg hl] at hstep
          obtain rfl := Option.some.inj hstep
          simp only
          constructor
          · intro hrel; exact absurd hrel (by omega)
          · rintro ⟨hop, -⟩; exact absurd hop (by simp)
    | moveDead =>
        simp only [sab_step] at hstep
        by_cases hd : s.dead = 0
        · rw [if_pos hd] at hstep; exact absurd hstep (by simp)
        · rw [if_neg hd] at hstep
          obtain rfl := Option.some.inj hstep
          simp only
          constructor
          · intro hrel; exact absurd hrel (by omega)
          · rintro ⟨hop, -⟩; exact absurd hop (by simp)
    | destroyLive =>
        simp only [sab_step] at hstep
        by_cases hl : s.live = 0
        · rw [if_pos hl] at hstep; exact absurd hstep (by simp)
        · rw [if_neg hl] at hstep
          obtain rfl := Option.some.inj hstep
          simp only
          constructor
          · intro hrel
            refine ⟨by trivial, ?_⟩
            by_cases hz : s.rc - 1 = 0
            · omega
            · rw [if_neg hz] at hrel; exact absurd hrel (by omega)
          · rintro ⟨-, hrc⟩
            rw [if_pos (by omega)]
    | destroyDead =>
        simp only [sab_step] at hstep
        by_cases hd : s.dead = 0
        · rw [if_pos hd] at hstep; exact absurd hstep (by simp)
        · rw [if_neg hd] at hstep
          obtain rfl := Option.some.inj hstep
          simp only
          constructor
          · intro hrel; exact absurd hrel (by omega)
          · rintro ⟨hop, -⟩; exact absurd hop (by simp)

/-- Witness for C1: the trace copy, destroy, destroy ends with count 0,
exactly one release, and no further step can release again. -/
theorem shared_buffer_refcount_invariant_witness :
    (0 : Int) = ((0 : Nat) : Int) ∧ (1 : Nat) ≤ 1 ∧ ((1 : Nat) = 1 ↔ (0 : Int) = 0) ∧
    (∀ op s', sab_step ⟨0, 0, 0, 1⟩ op = some s' →
      (s'.releases = 1 + 1 ↔ (op = sab_op.destroyLive ∧ (0 : Int) = 1))) :=
  shared_buffer_refcount_invariant [sab_op.copy, sab_op.destroyLive, sab_op.destroyLive]
    ⟨0, 0, 0, 1⟩ (by decide)

/-!
## C9 — bare-string buffer_stream::get()
-/

theorem take_length_takeWhile (l : List Nat) (p : Nat → Bool) :
    l.take (l.takeWhile p).length = l.takeWhile p := by
  induction l with
  | nil => rfl
  | cons a t ih =>
      by_cases hp : p a
      · rw [List.takeWhile_cons_of_pos hp]
        simpa using ih
      · rw [List.takeWhile_cons_of_neg hp]
        rfl

theorem length_takeWhile_le_length (l : List Nat) (p : Nat → Bool) :
    (l.takeWhile p).length ≤ l.length := by
  induction l with
  | nil => simp
  | cons a t ih =>
      by_cases hp : p a
      · rw [List.takeWhile_cons_of_pos hp]
        simpa using ih
      · rw [List.takeWhile_cons_of_neg hp]
        simp

/-- C9 counterexample: the claim states that the bare-string `get()`
advances the cursor past the terminating zero byte.  On the buffer
`[97, 98, 0, 99]` at cursor 0 the code returns the bytes `[97, 98]` but
leaves the cursor at 2 — the index of the zero byte — not at 3. -/
theorem get_str_cursor_counterexample :
    ¬((buffer_stream.get_str ⟨[97, 98, 0, 99], 0, false, false⟩).2.pos = 3) ∧
    buffer_stream.get_str ⟨[97, 98, 0, 99], 0, false, false⟩
      = ([97, 98], ⟨[97, 98, 0, 99], 2, false, false⟩) := by
  decide

/-- C9 (amended): for every stream whose remaining bytes contain a zero
byte (the C `strlen` precondition), the bare-string `get()` returns exactly
the bytes from the cursor up to but not including the first zero byte, and
advances the cursor to that zero byte (not past it), updating end-of-stream
if the new cursor sits exactly at the capacity. -/
theorem get_str_spec (s : buffer_stream)
    (hzero : (0 : Nat) ∈ s.data.drop s.pos) :
    s.get_str
      = ((s.data.drop s.pos).takeWhile (fun b => b ≠ 0),
         { s with
            eof := if s.pos + strlenFrom s.data s.pos = s.capacity then true
                   else s.eof,
            pos := s.pos + strlenFrom s.data s.pos }) := by
  have hne : s.data.drop s.pos ≠ [] := by
    intro he
    rw [he] at hzero
    exact absurd hzero (List.not_mem_nil 0)
  have hposlt : s.pos < s.data.length := by
    by_contra hge
    exact hne (List.drop_of_length_le (by omega))
  have hlen : strlenFrom s.data s.pos ≤ s.data.length - s.pos := by
    unfold strlenFrom
    have := length_takeWhile_le_length (s.data.drop s.pos) (fun b => b ≠ 0)
    simpa using this
  have href : buffer_stream.reference
      ⟨s.data, s.pos + strlenFrom s.data s.pos,
       if s.pos + strlenFrom s.data s.pos = s.capacity then true else s.eof,
       s.auto_expand⟩
      (s.pos + strlenFrom s.data s.pos - strlenFrom s.data s.pos)
      (strlenFrom s.data s.pos)
      = some ((s.data.drop s.pos).takeWhile (fun b => b ≠ 0)) := by
    unfold buffer_stream.reference
    rw [if_neg (by unfold buffer_stream.capacity; simp only; omega)]
    congr 1
    rw [Nat.add_sub_cancel]
    exact take_length_takeWhile (s.data.drop s.pos) (fun b => b ≠ 0)
  simp only [buffer_stream.get_str, href]

/-- Witness for C9's amended theorem at the counterexample buffer. -/
theorem get_str_spec_witness :
    buffer_stream.get_str ⟨[97, 98, 0, 99], 0, false, false⟩
      = (([97, 98, 0, 99].drop 0).takeWhile (fun b => b ≠ 0),
         { data := [97, 98, 0, 99],
           eof := if 0 + strlenFrom [97, 98, 0, 99] 0
                     = buffer_stream.capacity ⟨[97, 98, 0, 99], 0, false, false⟩
                  then true else false,
           pos := 0 + strlenFrom [97, 98, 0, 99] 0, auto_expand := false }) :=
  get_str_spec ⟨[97, 98, 0, 99], 0, false, false⟩ (by decide)

/-!
## C7 — event_channel::post fan-out
-/

theorem post_foldl_eq_map (l : List Nat) (content : List Nat)
    (acc : List (Nat × List Nat)) :
    l.foldl (fun a cbid => a ++ [(cbid, content)]) acc
      = acc ++ l.map (fun c => (c, content)) := by
  induction l generalizing acc with
  | nil => simp
  | cons c rest ih => simp [ih]

theorem subscribe_fold (subs : List Nat) (ch : event_channel) (e : Nat) :
    (subs.foldl (fun c u => (c.subscribe u).2) ch).evhandlers e
      = ch.evhandlers e
        ++ ((subs.enumFrom ch.cbid_count).filter (fun p => p.2 == e)).map
             Prod.fst := by
  induction subs generalizing ch with
  | nil => simp [List.enumFrom]
  | cons u rest ih =>
      rw [List.foldl_cons, ih]
      by_cases he : e = u
      · subst he
        simp [event_channel.subscribe, List.filter_cons]
      · have hne : ¬(u = e) := fun h => he h.symm
        simp [event_channel.subscribe, List.filter_cons, he, hne]

/-- C7: posting an event with serialized bytes `content` and type id `ueid`
to a channel built by any sequence of subscriptions invokes exactly the
subscribers registered under `ueid` — identified by the callback ids handed
out in subscription order — once each, in that order, each invocation
receiving the one serialized buffer; subscribers registered under other type
ids receive nothing. -/
theorem event_channel_post_fanout (subs : List Nat) (ueid : Nat)
    (content : List Nat) :
    (subscribe_all subs).post ueid content
      = ((subs.enumFrom 0).filter (fun p => p.2 == ueid)).map
          (fun p => (p.1, content)) := by
  unfold event_channel.post subscribe_all
  rw [post_foldl_eq_map, subscribe_fold]
  simp [event_channel.empty, List.map_map]

/-!
## C6 — event_log round trip
-/

theorem append_bytes_run (data : List Nat) (pos : Nat) (e : Bool)
    (src P : List Nat) (k : Nat)
    (hdata : data = P ++ List.replicate k 0) (hpos : pos = P.length) :
    buffer_stream.append_bytes ⟨data, pos, e, true⟩ src
      = (true, ⟨P ++ src ++ List.replicate (k - src.length) 0,
                pos + src.length, e || decide (k ≤ src.length), true⟩) := by
  subst hdata hpos
  simp only [buffer_stream.append_bytes, buffer_stream.capacity]
  by_cases hk : k ≤ src.length
  · rw [if_pos ⟨trivial, by simp; omega⟩]
    have hexp : expandTo (P ++ List.replicate k 0) (P.length + src.length)
        = P ++ List.replicate src.length 0 := by
      unfold expandTo
      rw [List.take_of_length_le (by simp; omega)]
      simp only [List.length_append, List.length_replicate, List.append_assoc,
        List.append_replicate_replicate]
      congr 2
      omega
    simp only [hexp]
    rw [if_pos (by simp)]
    have hw : writeBytes (P ++ List.replicate src.length 0) src
        (P.length + src.length - src.length)
        = some (P ++ src) := by
      unfold writeBytes
      rw [if_neg (by simp)]
      rw [Nat.add_sub_cancel, List.take_left, List.drop_of_length_le (by simp)]
      simp
    simp only [hw]
    have hrep : List.replicate (k - src.length) (0 : Nat) = [] := by
      rw [Nat.sub_eq_zero_of_le hk]
      rfl
    simp [hrep, decide_eq_true hk]
  · rw [if_neg (by simp; omega)]
    rw [if_neg (by simp; omega)]
    have hw : writeBytes (P ++ List.replicate k 0) src
        (P.length + src.length - src.length)
        = some (P ++ src ++ List.replicate (k - src.length) 0) := by
      unfold writeBytes
      rw [if_neg (by simp; omega)]
      rw [Nat.add_sub_cancel, List.take_left]
      have hdrop : (P ++ List.replicate k 0).drop (P.length + src.length)
          = List.replicate (k - src.length) (0 : Nat) := by
        rw [List.drop_append, List.drop_replicate]
      rw [hdrop]
    simp only [hw]
    have hd : decide (k ≤ src.length) = false := by
      simp [hk]
    rw [hd, Bool.or_false]

theorem append_sv_run (data : List Nat) (pos : Nat) (e : Bool)
    (str P : List Nat) (k : Nat)
    (hdata : data = P ++ List.replicate k 0) (hpos : pos = P.length) :
    buffer_stream.append_sv ⟨data, pos, e, true⟩ str
      = (true, ⟨P ++ (encLE 8 str.length ++ str)
                  ++ List.replicate (k - (str.length + 8)) 0,
                pos + (str.length + 8), e || decide (k ≤ str.length + 8),
                true⟩) := by
  subst hdata hpos
  simp only [buffer_stream.append_sv, buffer_stream.capacity]
  by_cases hk : k ≤ str.length + 8
  · rw [if_pos ⟨trivial, by simp; omega⟩]
    have hexp : expandTo (P ++ List.replicate k 0)
        (P.length + (str.length + 8))
        = P ++ List.replicate (str.length + 8) 0 := by
      unfold expandTo
      rw [List.take_of_length_le (by simp; omega)]
      simp only [List.length_append, List.length_replicate, List.append_assoc,
        List.append_replicate_replicate]
      congr 2
      omega
    simp only [hexp]
    rw [if_pos (by simp)]
    have hw1 : writeBytes (P ++ List.replicate (str.length + 8) 0)
        (encLE 8 str.length)
        (P.length + (str.length + 8) - (str.length + 8))
        = some (P ++ encLE 8 str.length ++ List.replicate str.length 0) := by
      unfold writeBytes
      rw [if_neg (by simp [encLE_length])]
      rw [Nat.add_sub_cancel]
      simp only [encLE_length]
      rw [List.take_left, List.drop_append, List.drop_replicate]
      simp
    simp only [hw1]
    have hoff : P.length + (str.length + 8) - str.length
        = (P ++ encLE 8 str.length).length := by
      simp [encLE_length]
      omega
    rw [hoff]
    have hw2 : writeBytes (P ++ encLE 8 str.length ++ List.replicate str.length 0)
        str ((P ++ encLE 8 str.length).length)
        = some (P ++ encLE 8 str.length ++ str) := by
      unfold writeBytes
      rw [if_neg (by simp [encLE_length]; omega)]
      rw [List.take_left]
      have hdrop : (P ++ encLE 8 str.length ++ List.replicate str.length 0).drop
          ((P ++ encLE 8 str.length).length + str.length)
          = ([] : List Nat) := by
        rw [List.drop_append, List.drop_replicate]
        simp
      rw [hdrop]
      simp
    simp only [hw2]
    have hrep : List.replicate (k - (str.length + 8)) (0 : Nat) = [] := by
      rw [Nat.sub_eq_zero_of_le hk]
      rfl
    simp [hrep, decide_eq_true hk, List.append_assoc]
  · rw [if_neg (by simp; omega)]
    rw [if_neg (by simp; omega)]
    have hw1 : writeBytes (P ++ List.replicate k 0) (encLE 8 str.length)
        (P.length + (str.length + 8) - (str.length + 8))
        = some (P ++ encLE 8 str.length ++ List.replicate (k - 8) 0) := by
      unfold writeBytes
      rw [if_neg (by simp [encLE_length]; omega)]
      rw [Nat.add_sub_cancel]
      simp only [encLE_length]
      rw [List.take_left, List.drop_append, List.drop_replicate]
    simp only [hw1]
    have hoff : P.length + (str.length + 8) - str.length
        = (P ++ encLE 8 str.length).length := by
      simp [encLE_length]
      omega
    rw [hoff]
    have hw2 : writeBytes (P ++ encLE 8 str.length ++ List.replicate (k - 8) 0)
        str ((P ++ encLE 8 str.length).length)
        = some (P ++ encLE 8 str.length ++ str
                  ++ List.replicate (k - (str.length + 8)) 0) := by
      unfold writeBytes
      rw [if_neg (by simp [encLE_length]; omega)]
      rw [List.take_left]
      have hdrop : (P ++ encLE 8 str.length ++ List.replicate (k - 8) 0).drop
          ((P ++ encLE 8 str.length).length + str.length)
          = List.replicate (k - (str.length + 8)) (0 : Nat) := by
        rw [List.drop_append, List.drop_replicate]
        congr 1
        omega
      rw [hdrop]
    simp only [hw2]
    have hd : decide (k ≤ str.length + 8) = false := by
      simp [hk]
    rw [hd, Bool.or_false]
    simp [List.append_assoc]

theorem event_log_content_eq (lv tm : Nat) (frm msg : List Nat) :
    event_log_content lv tm frm msg
      = .ok (encLE 4 lv ++ encLE 8 tm ++ encLE 8 frm.length ++ frm
              ++ encLE 8 msg.length ++ msg) := by
  simp only [event_log_content]
  rw [append_bytes_run _ _ _ _ [] (4 + 8 + frm.length + msg.length + 1)
      (by simp) (by simp)]
  simp only [Bool.false_or]
  rw [if_neg (by simp)]
  rw [append_bytes_run _ _ _ _ (encLE 4 lv)
      (4 + 8 + frm.length + msg.length + 1 - (encLE 4 lv).length)
      (by simp) (by simp)]
  rw [if_neg (by simp)]
  rw [append_sv_run _ _ _ _ (encLE 4 lv ++ encLE 8 tm)
      (4 + 8 + frm.length + msg.length + 1 - (encLE 4 lv).length
        - (encLE 8 tm).length)
      (by simp [List.append_assoc]) (by simp)]
  rw [if_neg (by simp)]
  rw [append_sv_run _ _ _ _
      (encLE 4 lv ++ encLE 8 tm ++ (encLE 8 frm.length ++ frm))
      (4 + 8 + frm.length + msg.length + 1 - (encLE 4 lv).length
        - (encLE 8 tm).length - (frm.length + 8))
      (by simp [List.append_assoc]) (by simp [encLE_length]; try omega)]
  rw [if_neg (by simp)]
  have hzero : 4 + 8 + frm.length + msg.length + 1 - (encLE 4 lv).length
      - (encLE 8 tm).length - (frm.length + 8) - (msg.length + 8) = 0 := by
    simp [encLE_length]
    omega
  rw [hzero]
  simp [List.append_assoc]


theorem get_as_bytes_run (data : List Nat) (pos : Nat) (e : Bool) (step : Nat)
    (P Q R : List Nat)
    (hdata : data = P ++ Q ++ R) (hpos : pos = P.length)
    (hstep : step = Q.length) (hR : R.length ≠ 0) :
    buffer_stream.get_as_bytes ⟨data, pos, e, false⟩ step
      = .ok (Q, ⟨data, pos + step, e, false⟩) := by
  subst hdata hpos hstep
  have hlen : 0 < R.length := Nat.pos_of_ne_zero hR
  simp only [buffer_stream.get_as_bytes, buffer_stream.capacity]
  rw [if_neg (by simp; intro h; exact hR (by rw [h]; rfl))]
  have href : buffer_stream.reference
      ⟨P ++ Q ++ R, P.length + Q.length, e, false⟩
      (P.length + Q.length - Q.length) Q.length = some Q := by
    unfold buffer_stream.reference buffer_stream.capacity
    rw [if_neg (by simp)]
    rw [Nat.add_sub_cancel, List.append_assoc, List.drop_left, List.take_left]
  rw [href]


theorem get_as_view_run (data : List Nat) (pos : Nat) (e : Bool)
    (P Q R : List Nat)
    (hdata : data = P ++ (encLE 8 Q.length ++ Q) ++ R) (hpos : pos = P.length)
    (hQ : Q.length < 2 ^ 64) :
    buffer_stream.get_as_view ⟨data, pos, e, false⟩
      = (Q, ⟨data, pos + 8 + Q.length, e, false⟩) := by
  subst hdata hpos
  simp only [buffer_stream.get_as_view]
  have href1 : buffer_stream.reference
      ⟨P ++ (encLE 8 Q.length ++ Q) ++ R, P.length, e, false⟩
      P.length 8 = some (encLE 8 Q.length) := by
    unfold buffer_stream.reference buffer_stream.capacity
    rw [if_neg (by simp [encLE_length])]
    rw [List.append_assoc, List.drop_left]
    rw [List.append_assoc]
    rw [List.take_left' (by rw [encLE_length])]
  simp only [href1]
  have hdec : decLE (encLE 8 Q.length) = Q.length :=
    decLE_encLE 8 Q.length (by norm_num; exact hQ)
  rw [hdec]
  have href2 : buffer_stream.reference
      ⟨P ++ (encLE 8 Q.length ++ Q) ++ R, P.length, e, false⟩
      (P.length + 8) Q.length = some Q := by
    unfold buffer_stream.reference buffer_stream.capacity
    rw [if_neg (by simp [encLE_length]; omega)]
    have hsplit : P ++ (encLE 8 Q.length ++ Q) ++ R
        = (P ++ encLE 8 Q.length) ++ (Q ++ R) := by
      simp [List.append_assoc]
    rw [hsplit]
    rw [List.drop_left' (by simp [encLE_length])]
    rw [List.take_left]
  simp only [href2]


theorem event_log_from_buffer_eq (lv tm : Nat) (frm msg : List Nat)
    (hlv : lv < 2 ^ 32) (htm : tm < 2 ^ 64)
    (hf : frm ≠ []) (hm : msg ≠ [])
    (hfl : frm.length < 2 ^ 64) (hml : msg.length < 2 ^ 64) :
    event_log_from_buffer
        (encLE 4 lv ++ encLE 8 tm ++ encLE 8 frm.length ++ frm
          ++ encLE 8 msg.length ++ msg)
      = .ok (lv, tm, frm, msg) := by
  simp only [event_log_from_buffer]
  rw [get_as_bytes_run _ _ _ _ [] (encLE 4 lv)
      (encLE 8 tm ++ encLE 8 frm.length ++ frm ++ encLE 8 msg.length ++ msg)
      (by simp [List.append_assoc]) (by simp) (by rw [encLE_length])
      (by simp [encLE_length])]
  dsimp only
  rw [get_as_bytes_run _ _ _ _ (encLE 4 lv) (encLE 8 tm)
      (encLE 8 frm.length ++ frm ++ encLE 8 msg.length ++ msg)
      (by simp [List.append_assoc]) (by simp [encLE_length])
      (by rw [encLE_length]) (by simp [encLE_length])]
  dsimp only
  rw [get_as_view_run _ _ _ (encLE 4 lv ++ encLE 8 tm) frm
      (encLE 8 msg.length ++ msg)
      (by simp [List.append_assoc]) (by simp [encLE_length]) hfl]
  dsimp only
  rw [if_neg (by simp [hf])]
  rw [get_as_view_run _ _ _
      (encLE 4 lv ++ encLE 8 tm ++ (encLE 8 frm.length ++ frm)) msg []
      (by simp [List.append_assoc]) (by simp [encLE_length]; try omega) hml]
  dsimp only
  rw [if_neg (by simp [hm])]
  rw [decLE_encLE 4 lv (by norm_num; exact hlv),
      decLE_encLE 8 tm (by norm_num; exact htm)]

/-- C6: for every log level and timestamp value and non-empty source and
message byte strings (within the machine-integer ranges of the 4-byte level
and the 8-byte timestamp and size fields), constructing an `event_log` from
the four values, taking its `content()` buffer, and reconstructing an
`event_log` from that buffer recovers exactly the original level, timestamp,
source, and message. -/
theorem event_log_roundtrip (lv tm : Nat) (frm msg : List Nat)
    (hlv : lv < 2 ^ 32) (htm : tm < 2 ^ 64) (hf : frm ≠ []) (hm : msg ≠ [])
    (hfl : frm.length < 2 ^ 64) (hml : msg.length < 2 ^ 64) :
    (event_log_content lv tm frm msg).bind event_log_from_buffer
      = .ok (lv, tm, frm, msg) := by
  rw [event_log_content_eq]
  simp only [Except.bind]
  exact event_log_from_buffer_eq lv tm frm msg hlv htm hf hm hfl hml

/-- Witness for C6 at the specification's end-to-end example: level ERROR
(5), timestamp 1700000000, source "svc", message "boom". -/
theorem event_log_roundtrip_witness :
    (event_log_content 5 1700000000 [115, 118, 99] [98, 111, 111, 109]).bind
        event_log_from_buffer
      = .ok (5, 1700000000, [115, 118, 99], [98, 111, 111, 109]) :=
  event_log_roundtrip 5 1700000000 [115, 118, 99] [98, 111, 111, 109]
    (by norm_num) (by norm_num) (by decide) (by decide) (by norm_num)
    (by norm_num)
